import Mathlib

/-!
# dbupdate-lambda: staging of S3 migration files and the migration run

A shallow embedding of `main.go` (`handleRequest`, `downloadMigrations`) together with
models of the collaborators it calls: Go's `path/filepath` (Unix flavour), a small
file system, the S3 pager and the migration engine.
-/

set_option autoImplicit false

/-- Go strings are byte sequences; they are embedded as lists of characters. -/
abbrev GoString := List Char

/-- File contents. -/
abbrev Bytes := List Nat

namespace filepath

/-- `strings.Split(p, "/")`: the elements between separators (never the empty list). -/
def splitSlash : GoString → List GoString
  | [] => [[]]
  | c :: cs =>
    if c = '/' then [] :: splitSlash cs
    else
      match splitSlash cs with
      | [] => [[c]]
      | s :: ss => (c :: s) :: ss

/-- `strings.Join(elems, "/")`. -/
def joinSlash : List GoString → GoString
  | [] => []
  | [s] => s
  | s :: t :: rest => s ++ '/' :: joinSlash (t :: rest)

/-- The state of the scan that `filepath.Clean` performs over the elements of a path:
`rooted` is whether the path starts with a separator, `dotdot` counts the leading `..`
elements that could not be cancelled (the region below Go's `dotdot` index), `elems`
are the real elements written after them. -/
structure Lexical where
  rooted : Bool
  dotdot : Nat
  elems : List GoString
deriving DecidableEq, Repr

/-- One iteration of the loop of `filepath.Clean`, on the path element `e`:
an empty element and `.` are skipped; `..` backtracks over the last real element when
there is one (`out.w > dotdot`), is dropped on a rooted path, and is appended otherwise;
a real element is appended. -/
def Lexical.step (st : Lexical) (e : GoString) : Lexical :=
  if e = [] ∨ e = ['.'] then st
  else if e = ['.', '.'] then
    if st.elems ≠ [] then { st with elems := st.elems.dropLast }
    else if st.rooted then st
    else { st with dotdot := st.dotdot + 1 }
  else { st with elems := st.elems ++ [e] }

/-- `os.IsPathSeparator(path[0])` for a non-empty path, false for the empty one. -/
def isRooted : GoString → Bool
  | c :: _ => c == '/'
  | [] => false

/-- The scan of `filepath.Clean` over a whole path. -/
def scan (p : GoString) : Lexical :=
  (splitSlash p).foldl Lexical.step { rooted := isRooted p, dotdot := 0, elems := [] }

/-- The string `filepath.Clean` returns for a finished scan: the root slash or the leading
`..` elements, then the real elements, separated by single slashes; `.` when nothing is left
of a relative path. -/
def Lexical.render (st : Lexical) : GoString :=
  if st.rooted then '/' :: joinSlash st.elems
  else
    match List.replicate st.dotdot ['.', '.'] ++ st.elems with
    | [] => ['.']
    | s :: ss => joinSlash (s :: ss)

/-- `filepath.Clean`: the shortest path name equivalent to `p` by purely lexical processing. -/
def Clean (p : GoString) : GoString := (scan p).render

/-- The loop of `filepath.Base` that strips trailing slashes. -/
def stripTrailing (p : GoString) : GoString :=
  (p.reverse.dropWhile (fun c => c == '/')).reverse

/-- The loop of `filepath.Base` that finds the last element: what follows the last slash. -/
def lastElement (p : GoString) : GoString :=
  (p.reverse.takeWhile (fun c => c != '/')).reverse

/-- `filepath.Base`: the last element of `path`; `.` for the empty path, `/` for a path
of slashes only. -/
def Base (path : GoString) : GoString :=
  if path = [] then ['.']
  else
    let path := lastElement (stripTrailing path)
    if path = [] then ['/'] else path

/-- `filepath.Join`: the elements from the first non-empty one on, joined with slashes and
cleaned; the empty string when every element is empty. -/
def Join (elem : List GoString) : GoString :=
  match elem.dropWhile (fun e => e == []) with
  | [] => []
  | e :: rest => Clean (joinSlash (e :: rest))

end filepath

open filepath


namespace filepath

/-- An ordinary file name: a non-empty element without a slash other than `.` and `..`. -/
def isName (e : GoString) : Bool :=
  decide (e ≠ []) && decide (e ≠ ['.']) && decide (e ≠ ['.', '.']) && decide ('/' ∉ e)

/-- The scan state for the entry `name` of the directory with scan state `st`. -/
def Lexical.child (st : Lexical) (name : GoString) : Lexical :=
  { st with elems := st.elems ++ [name] }

/-- A finished scan: a rooted path has no leading `..`, every real element is a name. -/
def Lexical.normal (st : Lexical) : Prop :=
  (st.rooted = true → st.dotdot = 0) ∧ ∀ e ∈ st.elems, isName e = true

end filepath

open filepath

/-! ## Go error values -/

/-- The error values the program handles: the sentinel `migrate.ErrNoChange`, an error
produced by a collaborator or by `fmt.Errorf` without `%w`, and `fmt.Errorf("label: %w", cause)`. -/
inductive GoError where
  | ErrNoChange
  | plain (msg : GoString)
  | wrap (label : GoString) (cause : GoError)
deriving DecidableEq, Repr

namespace GoError

/-- The method `Error()`: the message of an error value. -/
def Error : GoError → GoString
  | ErrNoChange => "no change".toList
  | plain msg => msg
  | wrap label cause => label ++ ": ".toList ++ cause.Error

/-- The function `errors.Unwrap`. -/
def Unwrap : GoError → Option GoError
  | wrap _ cause => some cause
  | _ => none

end GoError

/-- How `%v` prints an error value that may be nil. -/
def fmtErr : Option GoError → GoString
  | none => "<nil>".toList
  | some e => e.Error

/-! ## The file system -/

namespace filepath

/-- Whether the path with scan `p` is the directory with scan `d` or lies below it. -/
def Lexical.within (d p : Lexical) : Bool :=
  decide (p.rooted = d.rooted) && decide (p.dotdot = d.dotdot) && decide (d.elems <+: p.elems)

/-- The name under which the path with scan `p` is a direct entry of the directory with
scan `d`, if it is one. -/
def Lexical.entryName (d p : Lexical) : Option GoString :=
  match p.elems.getLast? with
  | none => none
  | some name => if p = d.child name then some name else none

end filepath

/-- An I/O failure of `ioutil.WriteFile`: at the open of the file, or in the write or the
close that follow it, after `written` bytes of the data reached the file. -/
inductive WriteFault where
  | atOpen (err : GoError)
  | afterOpen (written : Nat) (err : GoError)
deriving DecidableEq, Repr

/-- A file system: the directories and the regular files with their contents, each under
the scan of its path (paths are resolved lexically; there are no symbolic links). -/
structure FS where
  dirs : List Lexical
  files : List (Lexical × Bytes)
deriving DecidableEq, Repr

namespace FS

/-- The directory creation of `ioutil.TempDir`. -/
def Mkdir (fs : FS) (path : GoString) : FS :=
  { fs with dirs := scan path :: fs.dirs }

/-- The file system after a successful write of `data` to the file at `p`: the file is
created, or truncated and rewritten. -/
def put (fs : FS) (p : Lexical) (data : Bytes) : FS :=
  { fs with files := (p, data) :: fs.files.filter (fun f => decide (f.1 ≠ p)) }

/-- `ioutil.WriteFile(path, data, 0644)`, that is `os.OpenFile` with
`O_WRONLY|O_CREATE|O_TRUNC`, then `f.Write(data)`, then `f.Close()`. The open fails when
`path` names a directory or when the world injects a failure at the open; nothing is
changed then. A failure injected after the open leaves the file created or truncated,
holding the bytes written before the failure. Returns the error, if any, and the file
system after the call. -/
def WriteFile (fs : FS) (path : GoString) (data : Bytes) (fault : Option WriteFault) :
    Option GoError × FS :=
  if scan path ∈ fs.dirs then
    (some (.plain ("open ".toList ++ path ++ ": is a directory".toList)), fs)
  else
    match fault with
    | some (.atOpen err) => (some err, fs)
    | some (.afterOpen written err) => (some err, fs.put (scan path) (data.take written))
    | none => (none, fs.put (scan path) data)

/-- `os.RemoveAll(path)`: removes `path` and everything below it. The removal is taken to
succeed; the program discards the error it returns. -/
def RemoveAll (fs : FS) (path : GoString) : FS :=
  { dirs := fs.dirs.filter (fun q => !(scan path).within q)
    files := fs.files.filter (fun f => !(scan path).within f.1) }

/-- The regular files directly inside the directory `dir`: name and contents. -/
def ls (fs : FS) (dir : GoString) : List (GoString × Bytes) :=
  fs.files.filterMap (fun f => ((scan dir).entryName f.1).map (fun name => (name, f.2)))

end FS

/-! ## The collaborators: S3 and the migration engine -/

/-- The body stream of a fetched object: its full content, and, when reading the stream
fails partway, the number of bytes delivered before the failure. -/
structure Body where
  content : Bytes
  readFault : Option Nat

/-- `buf.ReadFrom(result.Body)` followed by `buf.Bytes()`: the bytes in the buffer after
reading until EOF or the first error. The error `ReadFrom` returns is not part of the
result, as the program discards it. -/
def Body.ReadFrom (b : Body) : Bytes :=
  match b.readFault with
  | none => b.content
  | some n => b.content.take n

/-- An entry of `page.Contents`, with what the world answers when the program handles it:
the result of `GetObject` for its key, and the I/O failure of the write that follows, if any. -/
structure Object where
  Key : GoString
  fetched : Except GoError Body
  writeFault : Option WriteFault

/-- The world of one invocation: the file system it starts from and the answers of the
collaborators. `pages` are the listing pages that S3 delivers for the bucket and prefix,
`listErr` is the request error that ends the pagination after them, if any. -/
structure World where
  fs : FS
  NewSession : Option GoError
  TempDir : Except GoError GoString
  pages : List (List Object)
  listErr : Option GoError
  New : Option GoError
  Up : Option GoError
  Close : Option GoError × Option GoError

/-- The observable actions of an invocation, in the order they happen. -/
inductive Event where
  | NewSession (region : GoString)
  | TempDir (dir pattern : GoString)
  | ListObjectsV2 (bucket keyPrefix : GoString)
  | GetObject (bucket key : GoString)
  | WriteFile (path : GoString) (data : Bytes)
  | callbackReturn (cont : Bool)
  | log (line : GoString)
  | New (sourceURL databaseURL : GoString)
  | Up (staged : List (GoString × Bytes))
  | Close
  | RemoveAll (path : GoString)
deriving DecidableEq, Repr

/-! ## The program -/

/-- The type `MyEvent` of `main.go`. -/
structure MyEvent where
  DbURL : GoString
  S3Bucket : GoString
  S3KeyPrefix : GoString

/-- The page callback of `downloadMigrations`, that is its loop
`for _, item := range page.Contents`: `false` as soon as a fetch or a write fails, `true`
at the end. What a failed write left in the file system stays there. The argument `lastPage` is not used by the callback and is left out; the
deferred `result.Body.Close()` changes nothing that is modelled. -/
def pageCallback (bucket destDir : GoString) : List Object → FS → Bool × FS × List Event
  | [], fs => (true, fs, [])
  | item :: rest, fs =>
    let key := item.Key
    let filePath := Join [destDir, Base key]
    match item.fetched with
    | .error err =>
      (false, fs,
        [.GetObject bucket key,
         .log ("failed to get object ".toList ++ key ++ ": ".toList ++ err.Error)])
    | .ok result =>
      let buf := result.ReadFrom
      match fs.WriteFile filePath buf item.writeFault with
      | (some err, fs1) =>
        (false, fs1,
          [.GetObject bucket key, .WriteFile filePath buf,
           .log ("failed to write file ".toList ++ filePath ++ ": ".toList ++ err.Error)])
      | (none, fs1) =>
        let r := pageCallback bucket destDir rest fs1
        (r.1, r.2.1, .GetObject bucket key :: .WriteFile filePath buf :: r.2.2)

/-- `s3Client.ListObjectsV2Pages(input, fn)` of the AWS SDK: `fn` is called on each page in
turn, the iteration stops when `fn` returns false, and the error returned is that of the
pager (`p.Err()`): the request error if a page request failed, nil otherwise, also when
`fn` stopped the iteration. -/
def ListObjectsV2Pages (listErr : Option GoError) (fn : List Object → FS → Bool × FS × List Event) :
    List (List Object) → FS → Option GoError × FS × List Event
  | [], fs => (listErr, fs, [])
  | page :: rest, fs =>
    let r := fn page fs
    if r.1 then
      let r2 := ListObjectsV2Pages listErr fn rest r.2.1
      (r2.1, r2.2.1, r.2.2 ++ .callbackReturn true :: r2.2.2)
    else
      (none, r.2.1, r.2.2 ++ [.callbackReturn false])

/-- The function `downloadMigrations` of `main.go`. -/
def downloadMigrations (w : World) (bucket keyPrefix destDir : GoString) (fs : FS) :
    Option GoError × FS × List Event :=
  let r := ListObjectsV2Pages w.listErr (pageCallback bucket destDir) w.pages fs
  (r.1, r.2.1, .ListObjectsV2 bucket keyPrefix :: r.2.2)

/-- What an invocation returns and leaves behind. -/
structure Outcome where
  result : GoString
  err : Option GoError
  fs : FS
  trace : List Event
deriving DecidableEq, Repr

/-- The part of `handleRequest` after `migrate.New` succeeded, up to the return; the
deferred `m.Close()` has run when it returns. -/
def runMigrations (w : World) (tempDir : GoString) (fs : FS) : Outcome :=
  let closing : List Event :=
    if w.Close.1 ≠ none ∨ w.Close.2 ≠ none then
      [.Close, .log ("error closing migrate instance: srcErr=".toList ++ fmtErr w.Close.1
        ++ ", dbErr=".toList ++ fmtErr w.Close.2)]
    else [.Close]
  match w.Up with
  | some err =>
    if err ≠ .ErrNoChange then
      { result := [], err := some (.wrap "failed to apply migrations".toList err), fs := fs,
        trace := .Up (fs.ls tempDir) :: closing }
    else
      { result := "Migration completed successfully".toList, err := none, fs := fs,
        trace := .Up (fs.ls tempDir) :: closing }
  | none =>
    { result := "Migration completed successfully".toList, err := none, fs := fs,
      trace := .Up (fs.ls tempDir) :: closing }

/-- The part of `handleRequest` after `defer os.RemoveAll(tempDir)`, up to the return. -/
def stageAndMigrate (w : World) (dbURL s3Bucket s3KeyPrefix tempDir : GoString) (fs : FS) :
    Outcome :=
  let d := downloadMigrations w s3Bucket s3KeyPrefix tempDir fs
  match d.1 with
  | some err =>
    { result := [], err := some (.wrap "failed to download migrations".toList err), fs := d.2.1,
      trace := d.2.2 }
  | none =>
    let source := "file://".toList ++ tempDir
    match w.New with
    | some err =>
      { result := [], err := some (.wrap "failed to create migrate instance".toList err),
        fs := d.2.1, trace := d.2.2 ++ [.New source dbURL] }
    | none =>
      let r := runMigrations w tempDir d.2.1
      { r with trace := d.2.2 ++ .New source dbURL :: r.trace }

/-- The function `handleRequest` of `main.go`. The deferred `os.RemoveAll(tempDir)` runs at
every return that follows the creation of the directory, after the deferred `m.Close()`. -/
def handleRequest (w : World) (event : MyEvent) : Outcome :=
  let dbURL := event.DbURL
  let s3Bucket := event.S3Bucket
  let s3KeyPrefix := event.S3KeyPrefix
  if dbURL = [] ∨ s3Bucket = [] ∨ s3KeyPrefix = [] then
    { result := [], err := some (.plain "db_url, s3_bucket, and s3_key_prefix are required".toList),
      fs := w.fs, trace := [] }
  else
    match w.NewSession with
    | some err =>
      { result := [], err := some (.wrap "failed to create AWS session".toList err), fs := w.fs,
        trace := [.NewSession "us-east-1".toList] }
    | none =>
      match w.TempDir with
      | .error err =>
        { result := [], err := some (.wrap "failed to create temp dir".toList err), fs := w.fs,
          trace := [.NewSession "us-east-1".toList, .TempDir [] "migrations".toList] }
      | .ok tempDir =>
        let r := stageAndMigrate w dbURL s3Bucket s3KeyPrefix tempDir (w.fs.Mkdir tempDir)
        { r with
          fs := r.fs.RemoveAll tempDir
          trace := .NewSession "us-east-1".toList :: .TempDir [] "migrations".toList :: r.trace
            ++ [.RemoveAll tempDir] }


/-! ## Vocabulary of the properties -/

/-- The file that `downloadMigrations` writes the object with key `key` to, as the file
system resolves `filepath.Join(destDir, filepath.Base(key))`. -/
def target (destDir key : GoString) : Lexical := scan (Join [destDir, Base key])

/-- Whether `path` names a direct entry of the directory `dir`. -/
def isEntryOf (dir path : GoString) : Bool := ((scan dir).entryName (scan path)).isSome

namespace Object

/-- The bytes the program holds in its buffer for a listed object once it has read the body. -/
def buf (o : Object) : Bytes :=
  match o.fetched with
  | .ok body => body.ReadFrom
  | .error _ => []

/-- The full content of a listed object in the bucket. -/
def content (o : Object) : Bytes :=
  match o.fetched with
  | .ok body => body.content
  | .error _ => []

/-- `GetObject` succeeds for the object. -/
def fetchOk (o : Object) : Bool :=
  match o.fetched with
  | .ok _ => true
  | .error _ => false

/-- `GetObject` succeeds for the object and its body is read to the end. -/
def readOk (o : Object) : Bool :=
  match o.fetched with
  | .ok body => body.readFault.isNone
  | .error _ => false

/-- What the failed handling of the object leaves in its target file: the bytes written
before a write that broke off after the open; nothing when the fetch or the open failed. -/
def leftover (dirs : List Lexical) (destDir : GoString) (o : Object) : Option Bytes :=
  match o.fetched, o.writeFault with
  | .ok body, some (.afterOpen written _) =>
    if target destDir o.Key ∈ dirs then none else some (body.ReadFrom.take written)
  | _, _ => none

/-- The fetch and the write of the object succeed in a file system whose directories are
`dirs`: `GetObject` returns a body, no I/O failure hits the write, and the file written
to is not a directory. -/
def succeeds (dirs : List Lexical) (destDir : GoString) (o : Object) : Bool :=
  o.fetchOk && o.writeFault.isNone && decide (target destDir o.Key ∉ dirs)

end Object

namespace FS

/-- The directory `destDir` exists in the file system and so does its parent directory. -/
def hasDir (fs : FS) (destDir : GoString) : Bool :=
  decide (destDir ≠ []) && decide (scan destDir ∈ fs.dirs) &&
    decide ((scan destDir).step ['.', '.'] ∈ fs.dirs)

/-- Nothing exists in the file system at `path` or below it. -/
def absent (fs : FS) (path : GoString) : Bool :=
  fs.dirs.all (fun q => !(scan path).within q) && fs.files.all (fun f => !(scan path).within f.1)

/-- The file system after a failed handling of the object `o`. -/
def afterFailure (fs : FS) (destDir : GoString) (o : Object) : FS :=
  match o.leftover fs.dirs destDir with
  | none => fs
  | some part => fs.put (target destDir o.Key) part

/-- The file system after the objects `items` were written one after the other, each to
its target file. -/
def staged (fs : FS) (destDir : GoString) (items : List Object) : FS :=
  items.foldl (fun acc o => acc.put (target destDir o.Key) o.buf) fs

end FS

/-- The last object of a listing whose key has the base name `name`. -/
def lastNamed (name : GoString) (items : List Object) : Option Object :=
  items.reverse.find? (fun o => decide (Base o.Key = name))

/-- The events of fetching and writing the objects `items`, all with success. -/
def stagedEvents (bucket destDir : GoString) : List Object → List Event
  | [] => []
  | o :: rest =>
    .GetObject bucket o.Key :: .WriteFile (Join [destDir, Base o.Key]) o.buf ::
      stagedEvents bucket destDir rest

/-- The events of the page callback running to its end on each of `pages`. -/
def pagedEvents (bucket destDir : GoString) : List (List Object) → List Event
  | [] => []
  | page :: rest =>
    stagedEvents bucket destDir page ++ .callbackReturn true :: pagedEvents bucket destDir rest

namespace Event

/-- The key of a `GetObject` event. -/
def fetchedKey : Event → Option GoString
  | .GetObject _ key => some key
  | _ => none

/-- The value the page callback returned, for a `callbackReturn` event. -/
def callbackResult : Event → Option Bool
  | .callbackReturn cont => some cont
  | _ => none

/-- Whether the event is the construction or the run of the migration engine. -/
def isEngine : Event → Bool
  | .New _ _ => true
  | .Up _ => true
  | _ => false

end Event

/-- The phases of `handleRequest` that can fail after the validation of the event. -/
inductive Phase where
  | session
  | tempDir
  | staging
  | construction
  | migration
deriving DecidableEq, Repr

/-- The label `handleRequest` puts in front of the cause when the phase fails. -/
def Phase.label : Phase → GoString
  | .session => "failed to create AWS session".toList
  | .tempDir => "failed to create temp dir".toList
  | .staging => "failed to download migrations".toList
  | .construction => "failed to create migrate instance".toList
  | .migration => "failed to apply migrations".toList

/-- Reads the failing phase off an error message, by its label. -/
def phaseOfMessage (msg : GoString) : Option Phase :=
  [Phase.session, Phase.tempDir, Phase.staging, Phase.construction, Phase.migration].find?
    (fun p => (p.label ++ ": ".toList).isPrefixOf msg)

/-- The event carries all three required fields. -/
def MyEvent.valid (event : MyEvent) : Bool :=
  decide (event.DbURL ≠ []) && decide (event.S3Bucket ≠ []) && decide (event.S3KeyPrefix ≠ [])

/-- A directory listing after one more file was written: the new entry replaces an entry
of the same name. -/
def overlay (acc : List (GoString × Bytes)) (e : GoString × Bytes) : List (GoString × Bytes) :=
  e :: acc.filter (fun x => decide (x.1 ≠ e.1))

/-- The directory entry an object is staged as: its base name and the bytes written. -/
def Object.entry (o : Object) : GoString × Bytes := (Base o.Key, o.buf)

/-! ## Concrete worlds -/

namespace Example

/-- A file system with the directories `/`, `/tmp` and a fresh `/tmp/migrations123`. -/
def fs : FS :=
  { dirs := [scan "/tmp/migrations123".toList, scan "/tmp".toList, scan "/".toList], files := [] }

/-- The file system before the staging directory is created. -/
def fs0 : FS := { dirs := [scan "/tmp".toList, scan "/".toList], files := [] }

/-- The staging directory of the examples. -/
def dir : GoString := "/tmp/migrations123".toList

/-- An object that is fetched, read and written without failure. -/
def object (key : String) (content : Bytes) : Object :=
  { Key := key.toList, fetched := .ok { content := content, readFault := none },
    writeFault := none }

/-- An object for which `GetObject` fails. -/
def unfetchable (key : String) : Object :=
  { Key := key.toList, fetched := .error (.plain "NoSuchKey".toList), writeFault := none }

/-- An object whose file cannot be created: the open fails. -/
def unwritable (key : String) (content : Bytes) : Object :=
  { Key := key.toList, fetched := .ok { content := content, readFault := none },
    writeFault := some (.atOpen (.plain "no space left on device".toList)) }

/-- An object whose write breaks off after `n` bytes reached the file. -/
def halfWritten (key : String) (content : Bytes) (n : Nat) : Object :=
  { Key := key.toList, fetched := .ok { content := content, readFault := none },
    writeFault := some (.afterOpen n (.plain "no space left on device".toList)) }

/-- An object whose body stream breaks after `n` bytes. -/
def truncated (key : String) (content : Bytes) (n : Nat) : Object :=
  { Key := key.toList, fetched := .ok { content := content, readFault := some n },
    writeFault := none }

/-- A world in which every collaborator answers with success, for the listing `pages`. -/
def world (pages : List (List Object)) : World :=
  { fs := fs0, NewSession := none, TempDir := .ok dir, pages := pages, listErr := none,
    New := none, Up := none, Close := (none, none) }

/-- A complete event. -/
def event : MyEvent :=
  { DbURL := "mysql://db".toList, S3Bucket := "migrations-bucket".toList,
    S3KeyPrefix := "app/".toList }

/-- The two migrations of the scenario of the specification, on two pages. -/
def twoPages : List (List Object) :=
  [[object "app/0001_init.sql" [1, 2]], [object "app/0002_add_col.sql" [3]]]

end Example

/-! ## Lexical facts about paths -/

namespace filepath

theorem isName_iff (e : GoString) :
    isName e = true ↔ e ≠ [] ∧ e ≠ ['.'] ∧ e ≠ ['.', '.'] ∧ '/' ∉ e := by
  simp [isName, and_assoc]

theorem splitSlash_ne_nil (p : GoString) : splitSlash p ≠ [] := by
  cases p with
  | nil => simp [splitSlash]
  | cons c cs =>
    simp only [splitSlash]
    split
    · simp
    · split <;> simp

theorem splitSlash_append_slash (a b : GoString) :
    splitSlash (a ++ '/' :: b) = splitSlash a ++ splitSlash b := by
  induction a with
  | nil => simp [splitSlash]
  | cons c cs ih =>
    by_cases hc : c = '/'
    · simp [splitSlash, hc, ih]
    · simp only [List.cons_append, splitSlash, hc, if_false, ih]
      cases h : splitSlash cs with
      | nil => exact absurd h (splitSlash_ne_nil cs)
      | cons s ss => simp [ih, h]

theorem splitSlash_of_not_mem (b : GoString) (h : '/' ∉ b) : splitSlash b = [b] := by
  induction b with
  | nil => rfl
  | cons c cs ih =>
    have hc : c ≠ '/' := fun e => h (by simp [e])
    have hcs : '/' ∉ cs := fun e => h (by simp [e])
    simp [splitSlash, hc, ih hcs]

theorem splitSlash_joinSlash (segs : List GoString) (hne : segs ≠ [])
    (h : ∀ s ∈ segs, '/' ∉ s) : splitSlash (joinSlash segs) = segs := by
  induction segs with
  | nil => exact absurd rfl hne
  | cons s rest ih =>
    cases rest with
    | nil => simpa [joinSlash] using splitSlash_of_not_mem s (h s (by simp))
    | cons t rest =>
      simp only [joinSlash]
      rw [splitSlash_append_slash, splitSlash_of_not_mem s (h s (by simp)),
        ih (by simp) (fun x hx => h x (by simp [hx]))]
      rfl

theorem step_of_isName (st : Lexical) (e : GoString) (h : isName e = true) :
    st.step e = st.child e := by
  obtain ⟨h1, h2, h3, -⟩ := (isName_iff e).1 h
  simp [Lexical.step, Lexical.child, h1, h2, h3]

theorem foldl_step_names (names : List GoString) (st : Lexical)
    (h : ∀ e ∈ names, isName e = true) :
    names.foldl Lexical.step st = { st with elems := st.elems ++ names } := by
  induction names generalizing st with
  | nil => simp
  | cons e rest ih =>
    rw [List.foldl_cons, step_of_isName st e (h e (by simp)),
      ih _ (fun x hx => h x (by simp [hx]))]
    simp [Lexical.child]

theorem foldl_step_dotdot (n k : Nat) :
    (List.replicate n ['.', '.']).foldl Lexical.step { rooted := false, dotdot := k, elems := [] }
      = { rooted := false, dotdot := k + n, elems := [] } := by
  induction n generalizing k with
  | zero => simp
  | succ n ih =>
    rw [List.replicate_succ, List.foldl_cons]
    have : Lexical.step { rooted := false, dotdot := k, elems := [] } ['.', '.']
        = { rooted := false, dotdot := k + 1, elems := [] } := by
      simp [Lexical.step]
    rw [this, ih]
    congr 1
    omega

theorem step_normal (st : Lexical) (e : GoString) (hst : st.normal) (he : '/' ∉ e) :
    (st.step e).normal := by
  unfold Lexical.step
  split
  · exact hst
  · rename_i h1
    split
    · split
      · exact ⟨hst.1, fun x hx => hst.2 x (List.mem_of_mem_dropLast hx)⟩
      · split
        · exact hst
        · rename_i hr
          exact ⟨fun h => absurd h hr, hst.2⟩
    · rename_i h2
      refine ⟨hst.1, fun x hx => ?_⟩
      rcases List.mem_append.1 hx with hx | hx
      · exact hst.2 x hx
      · have hxe : x = e := by simpa using hx
        subst hxe
        rw [isName_iff]
        push_neg at h1
        exact ⟨h1.1, h1.2, h2, he⟩

theorem not_mem_of_mem_splitSlash (p s : GoString) (h : s ∈ splitSlash p) : '/' ∉ s := by
  induction p generalizing s with
  | nil =>
    have : s = [] := by simpa [splitSlash] using h
    simp [this]
  | cons c cs ih =>
    by_cases hc : c = '/'
    · simp only [splitSlash, hc, if_true, List.mem_cons] at h
      rcases h with h | h
      · simp [h]
      · exact ih s h
    · simp only [splitSlash, hc, if_false] at h
      cases hs : splitSlash cs with
      | nil => exact absurd hs (splitSlash_ne_nil cs)
      | cons t ts =>
        rw [hs] at h
        simp only [List.mem_cons] at h
        rcases h with h | h
        · subst h
          have := ih t (by simp [hs])
          intro hm
          rcases List.mem_cons.1 hm with hm | hm
          · exact hc hm.symm
          · exact this hm
        · exact ih s (by simp [hs, h])

theorem foldl_step_normal (segs : List GoString) (st : Lexical) (hst : st.normal)
    (h : ∀ s ∈ segs, '/' ∉ s) : (segs.foldl Lexical.step st).normal := by
  induction segs generalizing st with
  | nil => exact hst
  | cons s rest ih =>
    exact ih _ (step_normal st s hst (h s (by simp))) (fun x hx => h x (by simp [hx]))

theorem scan_normal (p : GoString) : (scan p).normal :=
  foldl_step_normal _ _ ⟨fun _ => rfl, by simp⟩ (fun s hs => not_mem_of_mem_splitSlash p s hs)


theorem isRooted_joinSlash (s : GoString) (ss : List GoString) (hs : s ≠ []) :
    isRooted (joinSlash (s :: ss)) = isRooted s := by
  cases s with
  | nil => exact absurd rfl hs
  | cons c cs => cases ss <;> rfl

theorem isRooted_of_not_mem (s : GoString) (h : '/' ∉ s) : isRooted s = false := by
  cases s with
  | nil => rfl
  | cons c cs =>
    have hc : c ≠ '/' := fun e => h (by simp [e])
    simp [isRooted, hc]

theorem isRooted_append (d x : GoString) (hd : d ≠ []) : isRooted (d ++ x) = isRooted d := by
  cases d with
  | nil => exact absurd rfl hd
  | cons c cs => rfl

/-- Scanning a cleaned path gives back the scan it was rendered from. -/
theorem scan_render (st : Lexical) (h : st.normal) : scan st.render = st := by
  obtain ⟨rooted, dotdot, elems⟩ := st
  obtain ⟨h1, h2⟩ := h
  simp only at h1 h2
  have hslash : ∀ e ∈ elems, '/' ∉ e := fun e he => ((isName_iff e).1 (h2 e he)).2.2.2
  cases rooted with
  | true =>
    have hd : dotdot = 0 := h1 rfl
    subst hd
    simp only [Lexical.render, if_true, scan, isRooted, beq_self_eq_true, splitSlash]
    cases elems with
    | nil => simp [joinSlash, splitSlash, Lexical.step]
    | cons e es =>
      rw [splitSlash_joinSlash _ (by simp) hslash, List.foldl_cons]
      have : Lexical.step { rooted := true, dotdot := 0, elems := [] } []
          = { rooted := true, dotdot := 0, elems := [] } := by simp [Lexical.step]
      rw [this, foldl_step_names _ _ h2]
      simp
  | false =>
    simp only [Lexical.render, Bool.false_eq_true, if_false]
    cases hsegs : List.replicate dotdot ['.', '.'] ++ elems with
    | nil =>
      have hd : dotdot = 0 := by
        cases dotdot with
        | zero => rfl
        | succ n => simp [List.replicate_succ] at hsegs
      have he : elems = [] := by
        subst hd
        simpa using hsegs
      subst hd he
      simp [scan, splitSlash, isRooted, Lexical.step]
    | cons s ss =>
      simp only
      have hall : ∀ x ∈ List.replicate dotdot ['.', '.'] ++ elems, '/' ∉ x ∧ x ≠ [] := by
        intro x hx
        rcases List.mem_append.1 hx with hx | hx
        · have : x = ['.', '.'] := (List.mem_replicate.1 hx).2
          subst this
          exact ⟨by decide, by simp⟩
        · exact ⟨hslash x hx, ((isName_iff x).1 (h2 x hx)).1⟩
      rw [hsegs] at hall
      have hs := hall s (by simp)
      unfold scan
      rw [isRooted_joinSlash s ss hs.2, isRooted_of_not_mem s hs.1,
        splitSlash_joinSlash _ (by simp) (fun x hx => (hall x hx).1), ← hsegs,
        List.foldl_append, foldl_step_dotdot, foldl_step_names _ _ h2]
      simp

/-- Scanning `d/b` continues the scan of `d` over the elements of `b`. -/
theorem scan_append_slash (d b : GoString) (hd : d ≠ []) :
    scan (d ++ '/' :: b) = (splitSlash b).foldl Lexical.step (scan d) := by
  unfold scan
  rw [isRooted_append d _ hd, splitSlash_append_slash, List.foldl_append]

theorem scan_nil : scan [] = { rooted := false, dotdot := 0, elems := [] } := by
  simp [scan, splitSlash, isRooted, Lexical.step]

theorem scan_of_isName (b : GoString) (hb : isName b = true) :
    scan b = { rooted := false, dotdot := 0, elems := [b] } := by
  have h := (isName_iff b).1 hb
  unfold scan
  rw [splitSlash_of_not_mem b h.2.2.2, isRooted_of_not_mem b h.2.2.2]
  simp [step_of_isName _ b hb, Lexical.child]

/-- What `Join` returns for a directory and one more element. -/
theorem Join_pair (d b : GoString) (hd : d ≠ []) :
    Join [d, b] = Clean (d ++ '/' :: b) := by
  cases d with
  | nil => exact absurd rfl hd
  | cons c cs => simp [Join, joinSlash]

theorem Join_nil_left (b : GoString) (hb : b ≠ []) : Join [[], b] = Clean b := by
  cases b with
  | nil => exact absurd rfl hb
  | cons c cs => simp [Join, joinSlash]

/-- Joining an ordinary name to a directory path names the entry of that name in it. -/
theorem scan_Join_name (d b : GoString) (hb : isName b = true) :
    scan (Join [d, b]) = (scan d).child b := by
  have h := (isName_iff b).1 hb
  by_cases hd : d = []
  · subst hd
    rw [Join_nil_left b h.1, Clean, scan_render _ (scan_normal b), scan_of_isName b hb, scan_nil]
    rfl
  · rw [Join_pair d b hd, Clean, scan_render _ (scan_normal _), scan_append_slash d b hd,
      splitSlash_of_not_mem b h.2.2.2]
    simp [step_of_isName _ b hb]

/-- Joining `.` to a non-empty directory path names the directory itself. -/
theorem scan_Join_dot (d : GoString) (hd : d ≠ []) : scan (Join [d, ['.']]) = scan d := by
  rw [Join_pair d _ hd, Clean, scan_render _ (scan_normal _), scan_append_slash d _ hd]
  simp [splitSlash, Lexical.step]

/-- Joining `/` to a non-empty directory path names the directory itself. -/
theorem scan_Join_slash (d : GoString) (hd : d ≠ []) : scan (Join [d, ['/']]) = scan d := by
  rw [Join_pair d _ hd, Clean, scan_render _ (scan_normal _), scan_append_slash d _ hd]
  simp [splitSlash, Lexical.step]

/-- Joining `..` to a non-empty directory path names its parent. -/
theorem scan_Join_dotdot (d : GoString) (hd : d ≠ []) :
    scan (Join [d, ['.', '.']]) = (scan d).step ['.', '.'] := by
  rw [Join_pair d _ hd, Clean, scan_render _ (scan_normal _), scan_append_slash d _ hd]
  simp [splitSlash]

theorem not_mem_lastElement (p : GoString) : '/' ∉ lastElement p := by
  intro h
  have h1 : '/' ∈ p.reverse.takeWhile (fun c => c != '/') := by
    simpa [lastElement] using h
  have := List.mem_takeWhile_imp h1
  simp at this

/-- The three shapes of a base name: `.`, `..`, `/`, or an ordinary name. -/
theorem Base_cases (key : GoString) :
    Base key = ['.'] ∨ Base key = ['.', '.'] ∨ Base key = ['/'] ∨ isName (Base key) = true := by
  by_cases h1 : Base key = ['.']
  · exact Or.inl h1
  by_cases h2 : Base key = ['.', '.']
  · exact Or.inr (Or.inl h2)
  by_cases h3 : Base key = ['/']
  · exact Or.inr (Or.inr (Or.inl h3))
  refine Or.inr (Or.inr (Or.inr ?_))
  rw [isName_iff]
  refine ⟨?_, h1, h2, ?_⟩
  · unfold Base
    split
    · simp
    · simp only
      split <;> simp_all
  · unfold Base at h3 ⊢
    split
    · decide
    · rename_i hk
      simp only [hk, if_false] at h3
      simp only
      split
      · rename_i he
        simp [he] at h3
      · exact not_mem_lastElement _

end filepath

/-! ## The staging loop -/

theorem FS.put_dirs (fs : FS) (p : Lexical) (data : Bytes) : (fs.put p data).dirs = fs.dirs := rfl

theorem FS.staged_dirs (fs : FS) (destDir : GoString) (items : List Object) :
    (fs.staged destDir items).dirs = fs.dirs := by
  induction items generalizing fs with
  | nil => rfl
  | cons o rest ih => simp [FS.staged, List.foldl_cons] at ih ⊢; rw [ih]; rfl

theorem FS.staged_cons (fs : FS) (destDir : GoString) (o : Object) (rest : List Object) :
    fs.staged destDir (o :: rest) = (fs.put (target destDir o.Key) o.buf).staged destDir rest := rfl

theorem FS.staged_append (fs : FS) (destDir : GoString) (xs ys : List Object) :
    fs.staged destDir (xs ++ ys) = (fs.staged destDir xs).staged destDir ys := by
  simp [FS.staged, List.foldl_append]

theorem Object.succeeds_iff (dirs : List Lexical) (destDir : GoString) (o : Object) :
    o.succeeds dirs destDir = true ↔
      (∃ body, o.fetched = .ok body) ∧ o.writeFault = none ∧ target destDir o.Key ∉ dirs := by
  unfold Object.succeeds Object.fetchOk
  cases hf : o.fetched <;> cases hw : o.writeFault <;> simp

/-- One iteration of the loop on an object whose fetch and write succeed. -/
theorem pageCallback_cons_ok (bucket destDir : GoString) (o : Object) (rest : List Object)
    (fs : FS) (h : o.succeeds fs.dirs destDir = true) :
    pageCallback bucket destDir (o :: rest) fs =
      ((pageCallback bucket destDir rest (fs.put (target destDir o.Key) o.buf)).1,
       (pageCallback bucket destDir rest (fs.put (target destDir o.Key) o.buf)).2.1,
       .GetObject bucket o.Key :: .WriteFile (Join [destDir, Base o.Key]) o.buf ::
         (pageCallback bucket destDir rest (fs.put (target destDir o.Key) o.buf)).2.2) := by
  obtain ⟨⟨body, hb⟩, hw, ht⟩ := (Object.succeeds_iff _ _ _).1 h
  have ht2 : scan (Join [destDir, Base o.Key]) ∉ fs.dirs := ht
  simp [pageCallback, hb, hw, FS.WriteFile, ht2, Object.buf, target]

/-- The loop over a run of objects whose fetches and writes all succeed, followed by more. -/
theorem pageCallback_append (bucket destDir : GoString) (pre rest : List Object) (fs : FS)
    (h : ∀ o ∈ pre, o.succeeds fs.dirs destDir = true) :
    pageCallback bucket destDir (pre ++ rest) fs =
      ((pageCallback bucket destDir rest (fs.staged destDir pre)).1,
       (pageCallback bucket destDir rest (fs.staged destDir pre)).2.1,
       stagedEvents bucket destDir pre ++
         (pageCallback bucket destDir rest (fs.staged destDir pre)).2.2) := by
  induction pre generalizing fs with
  | nil => rfl
  | cons o pre ih =>
    rw [List.cons_append, pageCallback_cons_ok _ _ _ _ _ (h o (by simp)),
      ih _ (fun x hx => by rw [FS.put_dirs]; exact h x (by simp [hx]))]
    rfl

theorem pageCallback_ok (bucket destDir : GoString) (items : List Object) (fs : FS)
    (h : ∀ o ∈ items, o.succeeds fs.dirs destDir = true) :
    pageCallback bucket destDir items fs =
      (true, fs.staged destDir items, stagedEvents bucket destDir items) := by
  have := pageCallback_append bucket destDir items [] fs h
  simpa [pageCallback] using this

/-- The loop stops at an object whose fetch or write fails: the only object fetched is
that one, and the file system is the one its failed handling leaves. -/
theorem pageCallback_cons_fail (bucket destDir : GoString) (o : Object) (rest : List Object)
    (fs : FS) (h : o.succeeds fs.dirs destDir = false) :
    (pageCallback bucket destDir (o :: rest) fs).1 = false ∧
    (pageCallback bucket destDir (o :: rest) fs).2.1 = fs.afterFailure destDir o ∧
    (pageCallback bucket destDir (o :: rest) fs).2.2.filterMap Event.fetchedKey = [o.Key] ∧
    (pageCallback bucket destDir (o :: rest) fs).2.2.filterMap Event.callbackResult = [] := by
  unfold Object.succeeds Object.fetchOk at h
  cases hf : o.fetched with
  | error e =>
    simp [pageCallback, hf, Event.fetchedKey, Event.callbackResult, FS.afterFailure,
      Object.leftover]
  | ok body =>
    rw [hf] at h
    by_cases hd : scan (Join [destDir, Base o.Key]) ∈ fs.dirs
    · cases hw : o.writeFault with
      | none =>
        simp [pageCallback, hf, hw, FS.WriteFile, hd, Event.fetchedKey, Event.callbackResult,
          FS.afterFailure, Object.leftover]
      | some fault =>
        cases fault <;>
          simp [pageCallback, hf, hw, FS.WriteFile, hd, Event.fetchedKey, Event.callbackResult,
            FS.afterFailure, Object.leftover, target]
    · cases hw : o.writeFault with
      | none => simp [hw, target, hd] at h
      | some fault =>
        cases fault <;>
          simp [pageCallback, hf, hw, FS.WriteFile, hd, Event.fetchedKey, Event.callbackResult,
            FS.afterFailure, Object.leftover, target]

/-- The pager over a run of pages on which all fetches and writes succeed, followed by more. -/
theorem ListObjectsV2Pages_append (listErr : Option GoError) (bucket destDir : GoString)
    (good rest : List (List Object)) (fs : FS)
    (h : ∀ page ∈ good, ∀ o ∈ page, o.succeeds fs.dirs destDir = true) :
    ListObjectsV2Pages listErr (pageCallback bucket destDir) (good ++ rest) fs =
      ((ListObjectsV2Pages listErr (pageCallback bucket destDir) rest
          (fs.staged destDir good.flatten)).1,
       (ListObjectsV2Pages listErr (pageCallback bucket destDir) rest
          (fs.staged destDir good.flatten)).2.1,
       pagedEvents bucket destDir good ++
         (ListObjectsV2Pages listErr (pageCallback bucket destDir) rest
          (fs.staged destDir good.flatten)).2.2) := by
  induction good generalizing fs with
  | nil => rfl
  | cons page good ih =>
    have hp := pageCallback_ok bucket destDir page fs (h page (by simp))
    rw [List.cons_append, ListObjectsV2Pages, hp]
    simp only [if_true]
    rw [ih _ (fun pg hpg o ho => by rw [FS.staged_dirs]; exact h pg (by simp [hpg]) o ho)]
    simp [pagedEvents, FS.staged_append]

theorem stagedEvents_fetchedKey (bucket destDir : GoString) (items : List Object) :
    (stagedEvents bucket destDir items).filterMap Event.fetchedKey = items.map Object.Key := by
  induction items with
  | nil => rfl
  | cons o rest ih => simp [stagedEvents, Event.fetchedKey, ih]

theorem stagedEvents_callbackResult (bucket destDir : GoString) (items : List Object) :
    (stagedEvents bucket destDir items).filterMap Event.callbackResult = [] := by
  induction items with
  | nil => rfl
  | cons o rest ih => simp [stagedEvents, Event.callbackResult, ih]

theorem pagedEvents_fetchedKey (bucket destDir : GoString) (pages : List (List Object)) :
    (pagedEvents bucket destDir pages).filterMap Event.fetchedKey
      = pages.flatten.map Object.Key := by
  induction pages with
  | nil => rfl
  | cons page rest ih =>
    simp [pagedEvents, List.filterMap_append, stagedEvents_fetchedKey, Event.fetchedKey, ih]

theorem pagedEvents_callbackResult (bucket destDir : GoString) (pages : List (List Object)) :
    (pagedEvents bucket destDir pages).filterMap Event.callbackResult
      = List.replicate pages.length true := by
  induction pages with
  | nil => rfl
  | cons page rest ih =>
    simp [pagedEvents, List.filterMap_append, stagedEvents_callbackResult, Event.callbackResult,
      ih, List.replicate_succ]

/-! ## The staged directory -/

/-- In an existing directory whose parent exists, a target that is not a directory is the
entry of an ordinary name. -/
theorem name_of_target (fs : FS) (destDir key : GoString)
    (hd : fs.hasDir destDir = true) (ht : target destDir key ∉ fs.dirs) :
    isName (Base key) = true := by
  simp only [FS.hasDir, Bool.and_eq_true, decide_eq_true_eq] at hd
  obtain ⟨⟨hne, h1⟩, h2⟩ := hd
  unfold target at ht
  rcases Base_cases key with hb | hb | hb | hb
  · rw [hb, scan_Join_dot destDir hne] at ht; exact absurd h1 ht
  · rw [hb, scan_Join_dotdot destDir hne] at ht; exact absurd h2 ht
  · rw [hb, scan_Join_slash destDir hne] at ht; exact absurd h1 ht
  · exact hb

theorem name_of_succeeds (fs : FS) (destDir : GoString) (o : Object)
    (hd : fs.hasDir destDir = true) (h : o.succeeds fs.dirs destDir = true) :
    isName (Base o.Key) = true :=
  name_of_target fs destDir o.Key hd ((Object.succeeds_iff _ _ _).1 h).2.2

theorem target_of_isName (destDir key : GoString) (h : isName (Base key) = true) :
    target destDir key = (scan destDir).child (Base key) :=
  scan_Join_name destDir (Base key) h

theorem entryName_child (d : Lexical) (name : GoString) :
    d.entryName (d.child name) = some name := by
  simp [Lexical.entryName, Lexical.child]

theorem entryName_eq_some (d p : Lexical) (name : GoString) (h : d.entryName p = some name) :
    p = d.child name := by
  unfold Lexical.entryName at h
  split at h
  · exact absurd h (by simp)
  · split at h
    · rename_i hp
      have : _ = name := Option.some.inj h
      rw [← this]; exact hp
    · exact absurd h (by simp)

/-- Listing a directory after a file was written into it. -/
theorem FS.ls_put (fs : FS) (dir name : GoString) (data : Bytes) :
    (fs.put ((scan dir).child name) data).ls dir = overlay (fs.ls dir) (name, data) := by
  unfold FS.ls FS.put overlay
  simp only [List.filterMap_cons, entryName_child, Option.map_some']
  congr 1
  induction fs.files with
  | nil => rfl
  | cons f rest ih =>
    simp only [ne_eq, decide_not] at ih ⊢
    by_cases hf : f.1 = (scan dir).child name
    · simp [List.filter_cons, hf, entryName_child, ih]
    · cases he : (scan dir).entryName f.1 with
      | none => simp [List.filter_cons, hf, he, ih]
      | some m =>
        have hm : m ≠ name := by
          intro e
          rw [e] at he
          exact hf (entryName_eq_some _ _ _ he)
        simp [List.filter_cons, hf, he, ih, hm]

/-- Listing the staging directory after objects with ordinary base names were staged. -/
theorem FS.ls_staged (fs : FS) (destDir : GoString) (items : List Object)
    (h : ∀ o ∈ items, isName (Base o.Key) = true) :
    (fs.staged destDir items).ls destDir = (items.map Object.entry).foldl overlay (fs.ls destDir) := by
  induction items generalizing fs with
  | nil => rfl
  | cons o rest ih =>
    rw [FS.staged_cons, ih _ (fun x hx => h x (by simp [hx])),
      target_of_isName destDir o.Key (h o (by simp)), FS.ls_put]
    rfl

theorem lastNamed_concat (name : GoString) (items : List Object) (o : Object) :
    lastNamed name (items ++ [o]) = if Base o.Key = name then some o else lastNamed name items := by
  simp only [lastNamed, List.reverse_append, List.reverse_cons, List.reverse_nil, List.nil_append,
    List.singleton_append, List.find?_cons]
  by_cases h : Base o.Key = name <;> simp [h]

/-- The entries of a staged listing: the last object of each base name wins. -/
theorem mem_foldl_overlay (items : List Object) (acc : List (GoString × Bytes))
    (name : GoString) (data : Bytes) :
    (name, data) ∈ (items.map Object.entry).foldl overlay acc ↔
      (∃ o, lastNamed name items = some o ∧ o.buf = data) ∨
      (lastNamed name items = none ∧ (name, data) ∈ acc) := by
  induction items using List.reverseRecOn with
  | nil => simp [lastNamed]
  | append_singleton items o ih =>
    rw [List.map_append, List.foldl_append, lastNamed_concat]
    simp only [List.map_cons, List.map_nil, List.foldl_cons, List.foldl_nil, overlay,
      List.mem_cons, List.mem_filter, decide_eq_true_eq, Object.entry, Prod.mk.injEq]
    by_cases hb : Base o.Key = name
    · subst hb
      simp
      constructor
      · intro h; exact h.symm
      · intro h; exact h.symm
    · have hb2 : ¬ name = Base o.Key := fun e => hb e.symm
      simp only [hb, hb2, if_false, false_and, false_or, not_false_eq_true, and_true]
      rw [and_iff_left hb2]
      exact ih

theorem foldl_overlay_nodup (xs : List (GoString × Bytes)) (h : (xs.map Prod.fst).Nodup) :
    xs.foldl overlay [] = xs.reverse := by
  induction xs using List.reverseRecOn with
  | nil => rfl
  | append_singleton xs x ih =>
    rw [List.map_append, List.nodup_append] at h
    obtain ⟨h1, -, h3⟩ := h
    rw [List.foldl_append, ih h1]
    simp only [List.foldl_cons, List.foldl_nil, overlay, List.reverse_append, List.reverse_cons,
      List.reverse_nil, List.nil_append, List.singleton_append, List.cons.injEq, true_and]
    rw [List.filter_eq_self]
    intro a ha
    simp only [decide_eq_true_eq]
    intro e
    have ha' : a.1 ∈ xs.map Prod.fst := List.mem_map_of_mem _ (List.mem_reverse.1 ha)
    exact h3 ha' (by simp [e])

/-! ## The whole staging pass -/

/-- The staging pass over a listing on which every fetch and write succeeds. -/
theorem downloadMigrations_ok (w : World) (bucket keyPrefix destDir : GoString) (fs : FS)
    (h : ∀ o ∈ w.pages.flatten, o.succeeds fs.dirs destDir = true) :
    downloadMigrations w bucket keyPrefix destDir fs =
      (w.listErr, fs.staged destDir w.pages.flatten,
        .ListObjectsV2 bucket keyPrefix :: pagedEvents bucket destDir w.pages) := by
  have h2 := ListObjectsV2Pages_append w.listErr bucket destDir w.pages [] fs
    (fun page hp o ho => h o (List.mem_flatten.2 ⟨page, hp, ho⟩))
  rw [List.append_nil] at h2
  simp [downloadMigrations, h2, ListObjectsV2Pages]

/-- The staging pass over a listing in which `bad` is the first object whose fetch or
write fails. -/
theorem downloadMigrations_halt (w : World) (bucket keyPrefix destDir : GoString) (fs : FS)
    (before after : List (List Object)) (pre post : List Object) (bad : Object)
    (hpages : w.pages = before ++ (pre ++ bad :: post) :: after)
    (hok : ∀ o ∈ before.flatten ++ pre, o.succeeds fs.dirs destDir = true)
    (hbad : bad.succeeds fs.dirs destDir = false) :
    (downloadMigrations w bucket keyPrefix destDir fs).1 = none ∧
    (downloadMigrations w bucket keyPrefix destDir fs).2.1
      = (fs.staged destDir (before.flatten ++ pre)).afterFailure destDir bad ∧
    (downloadMigrations w bucket keyPrefix destDir fs).2.2.filterMap Event.fetchedKey
      = (before.flatten ++ pre ++ [bad]).map Object.Key ∧
    (downloadMigrations w bucket keyPrefix destDir fs).2.2.filterMap Event.callbackResult
      = List.replicate before.length true ++ [false] := by
  have h1 := ListObjectsV2Pages_append w.listErr bucket destDir before
    ((pre ++ bad :: post) :: after) fs
    (fun page hp o ho => hok o (List.mem_append_left _ (List.mem_flatten.2 ⟨page, hp, ho⟩)))
  have h2 := pageCallback_append bucket destDir pre (bad :: post)
    (fs.staged destDir before.flatten)
    (fun o ho => by rw [FS.staged_dirs]; exact hok o (List.mem_append_right _ ho))
  have hbad2 : bad.succeeds ((fs.staged destDir before.flatten).staged destDir pre).dirs destDir
      = false := by
    rw [FS.staged_dirs, FS.staged_dirs]; exact hbad
  obtain ⟨f1, f2, f3, f4⟩ := pageCallback_cons_fail bucket destDir bad post _ hbad2
  have h3 : ListObjectsV2Pages w.listErr (pageCallback bucket destDir)
      ((pre ++ bad :: post) :: after) (fs.staged destDir before.flatten) =
      (none, ((fs.staged destDir before.flatten).staged destDir pre).afterFailure destDir bad,
        (stagedEvents bucket destDir pre ++
          (pageCallback bucket destDir (bad :: post)
            ((fs.staged destDir before.flatten).staged destDir pre)).2.2) ++
          [.callbackReturn false]) := by
    rw [ListObjectsV2Pages, h2]
    simp only [f1, f2, Bool.false_eq_true, if_false]
  simp only [downloadMigrations, hpages, h1, h3]
  refine ⟨trivial, ?_, ?_, ?_⟩
  · rw [FS.staged_append]
  · simp only [List.filterMap_cons, Event.fetchedKey, List.filterMap_append,
      pagedEvents_fetchedKey, stagedEvents_fetchedKey, f3, List.filterMap_nil, List.map_append,
      List.map_cons, List.map_nil, List.append_nil, List.append_assoc]
  · simp only [List.filterMap_cons, Event.callbackResult, List.filterMap_append,
      pagedEvents_callbackResult, stagedEvents_callbackResult, f4, List.filterMap_nil,
      List.append_nil, List.nil_append]

theorem stagedEvents_no_log (bucket destDir : GoString) (items : List Object) (line : GoString) :
    Event.log line ∉ stagedEvents bucket destDir items := by
  induction items with
  | nil => simp [stagedEvents]
  | cons o rest ih => simp [stagedEvents, ih]

theorem pagedEvents_no_log (bucket destDir : GoString) (pages : List (List Object))
    (line : GoString) : Event.log line ∉ pagedEvents bucket destDir pages := by
  induction pages with
  | nil => simp [pagedEvents]
  | cons page rest ih => simp [pagedEvents, ih, stagedEvents_no_log]

theorem lastNamed_some (name : GoString) (items : List Object) (o : Object)
    (h : lastNamed name items = some o) : o ∈ items ∧ Base o.Key = name := by
  unfold lastNamed at h
  refine ⟨List.mem_reverse.1 (List.mem_of_find?_eq_some h), ?_⟩
  simpa using List.find?_some h

theorem lastNamed_isSome (name : GoString) (items : List Object) (o : Object)
    (ho : o ∈ items) (hn : Base o.Key = name) : ∃ o2, lastNamed name items = some o2 := by
  cases h : lastNamed name items with
  | some o2 => exact ⟨o2, rfl⟩
  | none =>
    unfold lastNamed at h
    rw [List.find?_eq_none] at h
    have := h o (List.mem_reverse.2 ho)
    simp [hn] at this

theorem Object.buf_of_readOk (o : Object) (h : o.readOk = true) : o.buf = o.content := by
  unfold Object.readOk at h
  unfold Object.buf Object.content
  cases hf : o.fetched with
  | error e => rfl
  | ok body =>
    rw [hf] at h
    cases hr : body.readFault with
    | none => simp [Body.ReadFrom, hr]
    | some n => simp [hr] at h

/-- The listing of the staging directory after a run of successful fetches and writes into
an empty directory. -/
theorem ls_staged_of_succeeds (fs : FS) (destDir : GoString) (items : List Object)
    (hdir : fs.hasDir destDir = true) (hempty : fs.ls destDir = [])
    (hok : ∀ o ∈ items, o.succeeds fs.dirs destDir = true) :
    (fs.staged destDir items).ls destDir = (items.map Object.entry).foldl overlay [] := by
  rw [FS.ls_staged fs destDir items (fun o ho => name_of_succeeds fs destDir o hdir (hok o ho)),
    hempty]

/-! ## The claims -/

theorem FS.absent_RemoveAll (fs : FS) (path : GoString) :
    (fs.RemoveAll path).absent path = true := by
  simp [FS.absent, FS.RemoveAll, List.all_eq_true]

theorem MyEvent.valid_iff (event : MyEvent) :
    event.valid = true ↔ ¬ (event.DbURL = [] ∨ event.S3Bucket = [] ∨ event.S3KeyPrefix = []) := by
  simp [MyEvent.valid, and_assoc]

/-- What `handleRequest` does once the event is valid, the session exists and the
staging directory was created. -/
theorem handleRequest_created (w : World) (event : MyEvent) (tempDir : GoString)
    (hv : event.valid = true) (hs : w.NewSession = none) (ht : w.TempDir = .ok tempDir) :
    handleRequest w event =
      { stageAndMigrate w event.DbURL event.S3Bucket event.S3KeyPrefix tempDir
          (w.fs.Mkdir tempDir) with
        fs := (stageAndMigrate w event.DbURL event.S3Bucket event.S3KeyPrefix tempDir
          (w.fs.Mkdir tempDir)).fs.RemoveAll tempDir
        trace := .NewSession "us-east-1".toList :: .TempDir [] "migrations".toList ::
          (stageAndMigrate w event.DbURL event.S3Bucket event.S3KeyPrefix tempDir
            (w.fs.Mkdir tempDir)).trace ++ [.RemoveAll tempDir] } := by
  have hv2 := (MyEvent.valid_iff event).1 hv
  simp only [handleRequest, hv2, if_false, hs, ht]

/-- C1: when one of db_url, s3_bucket, s3_key_prefix is empty, handleRequest returns the
configuration error with an empty result string and has performed no action at all: the
trace of the invocation is empty (no session, no temp directory, no listing or fetch, no
migration engine) and the file system is untouched. -/
theorem C1_missing_field_no_io (w : World) (event : MyEvent)
    (h : event.DbURL = [] ∨ event.S3Bucket = [] ∨ event.S3KeyPrefix = []) :
    (handleRequest w event).err
      = some (.plain "db_url, s3_bucket, and s3_key_prefix are required".toList) ∧
    (handleRequest w event).result = [] ∧
    (handleRequest w event).trace = [] ∧
    (handleRequest w event).fs = w.fs := by
  simp [handleRequest, h]

/-- An event with an empty bucket name leaves an empty trace. -/
theorem C1_missing_field_no_io_witness :
    (handleRequest (Example.world Example.twoPages)
        { DbURL := "mysql://db".toList, S3Bucket := [], S3KeyPrefix := "app/".toList }).trace = []
    := (C1_missing_field_no_io (Example.world Example.twoPages)
        { DbURL := "mysql://db".toList, S3Bucket := [], S3KeyPrefix := "app/".toList }
        (Or.inr (Or.inl rfl))).2.2.1

/-- C2 (the code departs from it): in a world where `GetObject` fails for the only listed
object, and in one where the write of its file fails, handleRequest returns the success
message with a nil error, and the migration engine is constructed and run, on an empty
staging directory. -/
theorem C2_failed_staging_reaches_engine :
    (handleRequest (Example.world [[Example.unfetchable "app/0001_init.sql"]]) Example.event).err
      = none ∧
    (handleRequest (Example.world [[Example.unfetchable "app/0001_init.sql"]]) Example.event).result
      = "Migration completed successfully".toList ∧
    ((handleRequest (Example.world [[Example.unfetchable "app/0001_init.sql"]])
      Example.event).trace.filter Event.isEngine)
      = [.New "file:///tmp/migrations123".toList "mysql://db".toList, .Up []] ∧
    (handleRequest (Example.world [[Example.unwritable "app/0001_init.sql" [1]]]) Example.event).err
      = none ∧
    (handleRequest (Example.world [[Example.unwritable "app/0001_init.sql" [1]]]) Example.event).result
      = "Migration completed successfully".toList ∧
    ((handleRequest (Example.world [[Example.unwritable "app/0001_init.sql" [1]]])
      Example.event).trace.filter Event.isEngine)
      = [.New "file:///tmp/migrations123".toList "mysql://db".toList, .Up []] := by
  decide

/-- C3: when the staging directory was created, nothing exists at or below its path when
handleRequest returns, whatever happened after the creation, and the removal is the last
action of the invocation; when the invocation ends before the creation, the file system is
the one it started from. -/
theorem C3_staging_dir_removed (w : World) (event : MyEvent) :
    (∀ tempDir, event.valid = true → w.NewSession = none → w.TempDir = .ok tempDir →
      (handleRequest w event).fs.absent tempDir = true ∧
      (handleRequest w event).trace.getLast? = some (.RemoveAll tempDir)) ∧
    ((event.valid = false ∨ w.NewSession ≠ none ∨ ∃ e, w.TempDir = .error e) →
      (handleRequest w event).fs = w.fs ∧
      ∀ path, Event.RemoveAll path ∉ (handleRequest w event).trace) := by
  constructor
  · intro tempDir hv hs ht
    rw [handleRequest_created w event tempDir hv hs ht]
    refine ⟨FS.absent_RemoveAll _ _, ?_⟩
    exact List.getLast?_concat _
  · intro h
    by_cases hv : event.valid = true
    · have hv2 := (MyEvent.valid_iff event).1 hv
      cases hs : w.NewSession with
      | some e => simp [handleRequest, hv2, hs]
      | none =>
        rcases h with h | h | ⟨e, h⟩
        · rw [hv] at h; exact absurd h (by simp)
        · exact absurd hs h
        · simp [handleRequest, hv2, hs, h]
    · have hv2 : event.DbURL = [] ∨ event.S3Bucket = [] ∨ event.S3KeyPrefix = [] := by
        by_contra hc
        exact hv ((MyEvent.valid_iff event).2 hc)
      simp [handleRequest, hv2]

/-- After a successful run on two pages the staging directory is gone. -/
theorem C3_staging_dir_removed_witness :
    (handleRequest (Example.world Example.twoPages) Example.event).fs.absent Example.dir = true ∧
    (handleRequest (Example.world Example.twoPages) Example.event).trace.getLast?
      = some (.RemoveAll Example.dir) :=
  (C3_staging_dir_removed (Example.world Example.twoPages) Example.event).1 Example.dir
    (by decide) rfl rfl

theorem FS.ls_Mkdir (fs : FS) (path dir : GoString) : (fs.Mkdir path).ls dir = fs.ls dir := rfl

/-- With nothing listed, staging leaves the file system as it is. -/
theorem downloadMigrations_nothing_listed (w : World) (bucket keyPrefix destDir : GoString)
    (fs : FS) (h : ∀ page ∈ w.pages, page = []) :
    (downloadMigrations w bucket keyPrefix destDir fs).2.1 = fs := by
  have hflat : w.pages.flatten = [] := by
    rw [List.flatten_eq_nil_iff]; exact h
  have h2 := ListObjectsV2Pages_append w.listErr bucket destDir w.pages [] fs
    (fun page hp o ho => by rw [h page hp] at ho; exact absurd ho (List.not_mem_nil o))
  rw [List.append_nil] at h2
  simp only [downloadMigrations, h2, hflat]
  rfl

/-- What `handleRequest` returns once staging succeeded and the engine was constructed. -/
theorem handleRequest_engine (w : World) (event : MyEvent) (tempDir : GoString)
    (hv : event.valid = true) (hs : w.NewSession = none) (ht : w.TempDir = .ok tempDir)
    (hd : (downloadMigrations w event.S3Bucket event.S3KeyPrefix tempDir
      (w.fs.Mkdir tempDir)).1 = none)
    (hn : w.New = none) :
    (handleRequest w event).result =
      (runMigrations w tempDir (downloadMigrations w event.S3Bucket event.S3KeyPrefix tempDir
        (w.fs.Mkdir tempDir)).2.1).result ∧
    (handleRequest w event).err =
      (runMigrations w tempDir (downloadMigrations w event.S3Bucket event.S3KeyPrefix tempDir
        (w.fs.Mkdir tempDir)).2.1).err ∧
    ∀ e ∈ (runMigrations w tempDir (downloadMigrations w event.S3Bucket event.S3KeyPrefix tempDir
        (w.fs.Mkdir tempDir)).2.1).trace, e ∈ (handleRequest w event).trace := by
  rw [handleRequest_created w event tempDir hv hs ht]
  simp only [stageAndMigrate, hd, hn]
  refine ⟨trivial, trivial, fun e he => ?_⟩
  simp [he]

/-- C6: once the session, the staging directory, the staging and the construction of the
engine succeeded, handleRequest returns the success message with a nil error exactly when
`m.Up` returns nil or `migrate.ErrNoChange`; any other error of `m.Up` gives an empty result
and the wrapped error; and when no object is listed and the directory was fresh, the
engine runs on an empty staging directory. -/
theorem C6_success_iff_up_nil_or_no_change (w : World) (event : MyEvent) (tempDir : GoString)
    (hv : event.valid = true) (hs : w.NewSession = none) (ht : w.TempDir = .ok tempDir)
    (hd : (downloadMigrations w event.S3Bucket event.S3KeyPrefix tempDir
      (w.fs.Mkdir tempDir)).1 = none)
    (hn : w.New = none) :
    (((handleRequest w event).result = "Migration completed successfully".toList ∧
        (handleRequest w event).err = none) ↔
      (w.Up = none ∨ w.Up = some .ErrNoChange)) ∧
    (∀ e, w.Up = some e → e ≠ .ErrNoChange →
      (handleRequest w event).result = [] ∧
      (handleRequest w event).err = some (.wrap "failed to apply migrations".toList e)) ∧
    ((∀ page ∈ w.pages, page = []) → w.fs.ls tempDir = [] →
      Event.Up [] ∈ (handleRequest w event).trace) := by
  obtain ⟨hr, he, htr⟩ := handleRequest_engine w event tempDir hv hs ht hd hn
  rw [hr, he]
  refine ⟨?_, ?_, ?_⟩
  · cases hu : w.Up with
    | none => simp [runMigrations, hu]
    | some e =>
      by_cases hc : e = .ErrNoChange
      · simp [runMigrations, hu, hc]
      · simp [runMigrations, hu, hc]
  · intro e hu hc
    simp [runMigrations, hu, hc]
  · intro hp hfresh
    apply htr
    rw [downloadMigrations_nothing_listed w _ _ _ _ hp]
    have hl : (w.fs.Mkdir tempDir).ls tempDir = [] := by rw [FS.ls_Mkdir]; exact hfresh
    cases hu : w.Up with
    | none => simp [runMigrations, hu, hl]
    | some e =>
      by_cases hc : e = .ErrNoChange
      · simp [runMigrations, hu, hc, hl]
      · simp [runMigrations, hu, hc, hl]

/-- An empty listing with ErrNoChange from the engine ends in success. -/
theorem C6_success_iff_up_nil_or_no_change_witness :
    (handleRequest { Example.world [[]] with Up := some .ErrNoChange } Example.event).result
        = "Migration completed successfully".toList ∧
    (handleRequest { Example.world [[]] with Up := some .ErrNoChange } Example.event).err = none ∧
    Event.Up [] ∈
      (handleRequest { Example.world [[]] with Up := some .ErrNoChange } Example.event).trace :=
  have h := C6_success_iff_up_nil_or_no_change
    { Example.world [[]] with Up := some .ErrNoChange } Example.event Example.dir
    (by decide) rfl rfl (by decide) rfl
  ⟨(h.1.2 (Or.inr rfl)).1, (h.1.2 (Or.inr rfl)).2,
    h.2.2 (fun page hp => List.mem_singleton.1 hp) (by decide)⟩

/-- C7: for a valid event, when the session creation, the creation of the temp directory,
`downloadMigrations`, `migrate.New` or `m.Up` (with an error other than ErrNoChange)
returns an error, handleRequest returns an empty string and an error that wraps that
cause under the label of the phase; the message of such an error is the label, a colon
and a blank, and the message of the cause; the five labels are pairwise different and the
phase can be read off the message. -/
theorem C7_failure_wraps_cause_with_phase_label (w : World) (event : MyEvent)
    (hv : event.valid = true) :
    (∀ e, w.NewSession = some e →
      (handleRequest w event).result = [] ∧
      (handleRequest w event).err = some (.wrap Phase.session.label e)) ∧
    (∀ e, w.NewSession = none → w.TempDir = .error e →
      (handleRequest w event).result = [] ∧
      (handleRequest w event).err = some (.wrap Phase.tempDir.label e)) ∧
    (∀ tempDir e, w.NewSession = none → w.TempDir = .ok tempDir →
      (downloadMigrations w event.S3Bucket event.S3KeyPrefix tempDir (w.fs.Mkdir tempDir)).1
        = some e →
      (handleRequest w event).result = [] ∧
      (handleRequest w event).err = some (.wrap Phase.staging.label e)) ∧
    (∀ tempDir e, w.NewSession = none → w.TempDir = .ok tempDir →
      (downloadMigrations w event.S3Bucket event.S3KeyPrefix tempDir (w.fs.Mkdir tempDir)).1
        = none →
      w.New = some e →
      (handleRequest w event).result = [] ∧
      (handleRequest w event).err = some (.wrap Phase.construction.label e)) ∧
    (∀ tempDir e, w.NewSession = none → w.TempDir = .ok tempDir →
      (downloadMigrations w event.S3Bucket event.S3KeyPrefix tempDir (w.fs.Mkdir tempDir)).1
        = none →
      w.New = none → w.Up = some e → e ≠ .ErrNoChange →
      (handleRequest w event).result = [] ∧
      (handleRequest w event).err = some (.wrap Phase.migration.label e)) ∧
    (∀ (p : Phase) (cause : GoError),
      (GoError.wrap p.label cause).Error = p.label ++ ": ".toList ++ cause.Error ∧
      (GoError.wrap p.label cause).Unwrap = some cause) ∧
    (∀ p q : Phase, p.label = q.label → p = q) ∧
    (∀ (p : Phase) (cause : GoError),
      phaseOfMessage (GoError.wrap p.label cause).Error = some p) := by
  have hv2 := (MyEvent.valid_iff event).1 hv
  refine ⟨?_, ?_, ?_, ?_, ?_, ?_, ?_, ?_⟩
  · intro e hs
    simp [handleRequest, hv2, hs, Phase.label]
  · intro e hs ht
    simp [handleRequest, hv2, hs, ht, Phase.label]
  · intro tempDir e hs ht hd
    rw [handleRequest_created w event tempDir hv hs ht]
    simp [stageAndMigrate, hd, Phase.label]
  · intro tempDir e hs ht hd hn
    rw [handleRequest_created w event tempDir hv hs ht]
    simp [stageAndMigrate, hd, hn, Phase.label]
  · intro tempDir e hs ht hd hn hu hc
    rw [handleRequest_created w event tempDir hv hs ht]
    simp [stageAndMigrate, hd, hn, runMigrations, hu, hc, Phase.label]
  · intro p cause
    exact ⟨rfl, rfl⟩
  · intro p q h
    cases p <;> cases q <;> first | rfl | exact absurd h (by decide)
  · intro p cause
    cases p <;> simp [phaseOfMessage, Phase.label, GoError.Error, List.find?, List.isPrefixOf]

/-- A failing `migrate.New` is reported under the label of the construction. -/
theorem C7_failure_wraps_cause_with_phase_label_witness :
    (handleRequest { Example.world [] with New := some (.plain "unknown driver".toList) }
      Example.event).err
      = some (.wrap "failed to create migrate instance".toList (.plain "unknown driver".toList)) :=
  ((C7_failure_wraps_cause_with_phase_label
    { Example.world [] with New := some (.plain "unknown driver".toList) } Example.event
    (by decide)).2.2.2.1 Example.dir (.plain "unknown driver".toList) rfl rfl (by decide) rfl).2

/-- C8 (the code departs from it): when the body stream of an object of four bytes breaks
after two bytes, `downloadMigrations` returns nil, logs nothing, and the staged file holds
the two bytes read, not the content of the object. -/
theorem C8_truncated_body_staged_as_success :
    (downloadMigrations (Example.world [[Example.truncated "app/0001_init.sql" [1, 2, 3, 4] 2]])
      "migrations-bucket".toList "app/".toList Example.dir Example.fs).1 = none ∧
    (downloadMigrations (Example.world [[Example.truncated "app/0001_init.sql" [1, 2, 3, 4] 2]])
      "migrations-bucket".toList "app/".toList Example.dir Example.fs).2.1.ls Example.dir
      = [("0001_init.sql".toList, [1, 2])] ∧
    (Example.truncated "app/0001_init.sql" [1, 2, 3, 4] 2).content = [1, 2, 3, 4] ∧
    (downloadMigrations (Example.world [[Example.truncated "app/0001_init.sql" [1, 2, 3, 4] 2]])
      "migrations-bucket".toList "app/".toList Example.dir Example.fs).2.2
      = [.ListObjectsV2 "migrations-bucket".toList "app/".toList,
         .GetObject "migrations-bucket".toList "app/0001_init.sql".toList,
         .WriteFile "/tmp/migrations123/0001_init.sql".toList [1, 2],
         .callbackReturn true] := by
  decide

/-- C9 (as stated it fails): for the staging directory `/tmp/migrations123`, the path
written for the empty key is the directory itself and the path written for the key
`app/..` is its parent `/tmp`; neither is an entry of the directory. -/
theorem C9_special_base_names_leave_dir :
    Join ["/tmp/migrations123".toList, Base []] = "/tmp/migrations123".toList ∧
    Join ["/tmp/migrations123".toList, Base "app/..".toList] = "/tmp".toList ∧
    isEntryOf "/tmp/migrations123".toList (Join ["/tmp/migrations123".toList, Base []]) = false ∧
    isEntryOf "/tmp/migrations123".toList
      (Join ["/tmp/migrations123".toList, Base "app/..".toList]) = false := by
  decide

/-- C9 (amended): for every destination directory and every key whose base name is none of
`.`, `..` and `/`, the path written is the entry of that base name in the directory: it is
not the directory itself, not its parent, and it lies below the directory. -/
theorem C9_ordinary_base_name_is_entry (destDir key : GoString)
    (h1 : Base key ≠ ['.']) (h2 : Base key ≠ ['.', '.']) (h3 : Base key ≠ ['/']) :
    (scan destDir).entryName (scan (Join [destDir, Base key])) = some (Base key) ∧
    isEntryOf destDir (Join [destDir, Base key]) = true ∧
    scan (Join [destDir, Base key]) ≠ scan destDir ∧
    scan (Join [destDir, Base key]) ≠ (scan destDir).step ['.', '.'] ∧
    (scan destDir).within (scan (Join [destDir, Base key])) = true := by
  have hn : isName (Base key) = true := by
    rcases Base_cases key with h | h | h | h
    · exact absurd h h1
    · exact absurd h h2
    · exact absurd h h3
    · exact h
  have hs := scan_Join_name destDir (Base key) hn
  have hlen : ∀ st : Lexical, st.elems.length ≤ (scan destDir).elems.length →
      scan (Join [destDir, Base key]) ≠ st := by
    intro st hle e
    rw [hs] at e
    have := congrArg (fun x => x.elems.length) e
    simp [Lexical.child] at this
    omega
  refine ⟨?_, ?_, ?_, ?_, ?_⟩
  · rw [hs]; exact entryName_child _ _
  · unfold isEntryOf
    rw [hs, entryName_child]; rfl
  · exact hlen _ (le_refl _)
  · apply hlen
    unfold Lexical.step
    simp only [List.cons_ne_self, or_self, if_false, if_true, reduceCtorEq]
    split
    · simp
    · split <;> simp
  · rw [hs]
    simp [Lexical.within, Lexical.child]

/-- The key `app/0001_init.sql` is written to an entry of the staging directory. -/
theorem C9_ordinary_base_name_is_entry_witness :
    isEntryOf "/tmp/migrations123".toList
      (Join ["/tmp/migrations123".toList, Base "app/0001_init.sql".toList]) = true :=
  (C9_ordinary_base_name_is_entry "/tmp/migrations123".toList "app/0001_init.sql".toList
    (by decide) (by decide) (by decide)).2.1

/-- C4: for a listing of any number of pages in which every fetch, read and write succeeds,
into an existing empty directory, `downloadMigrations` returns the error of the pager
(nil when no page request failed) and logs no failure; afterwards the names of the files
in destDir are exactly the base names of the listed keys, and a file holds the given bytes
exactly when they are the content of the last listed object of that base name; with
pairwise different base names every object is staged under its base name with its own
content. -/
theorem C4_staged_files_are_base_names (w : World) (bucket keyPrefix destDir : GoString) (fs : FS)
    (hdir : fs.hasDir destDir = true) (hempty : fs.ls destDir = [])
    (hok : ∀ o ∈ w.pages.flatten, o.readOk = true ∧ o.succeeds fs.dirs destDir = true) :
    (downloadMigrations w bucket keyPrefix destDir fs).1 = w.listErr ∧
    (∀ line, Event.log line ∉ (downloadMigrations w bucket keyPrefix destDir fs).2.2) ∧
    (∀ name, name ∈ ((downloadMigrations w bucket keyPrefix destDir fs).2.1.ls destDir).map Prod.fst
      ↔ ∃ o ∈ w.pages.flatten, Base o.Key = name) ∧
    (∀ name data, (name, data) ∈ (downloadMigrations w bucket keyPrefix destDir fs).2.1.ls destDir
      ↔ ∃ o, lastNamed name w.pages.flatten = some o ∧ o.content = data) ∧
    ((w.pages.flatten.map (fun o => Base o.Key)).Nodup →
      ∀ o ∈ w.pages.flatten,
        (Base o.Key, o.content) ∈ (downloadMigrations w bucket keyPrefix destDir fs).2.1.ls destDir)
    := by
  have hs : ∀ o ∈ w.pages.flatten, o.succeeds fs.dirs destDir = true := fun o ho => (hok o ho).2
  rw [downloadMigrations_ok w bucket keyPrefix destDir fs hs]
  simp only
  rw [ls_staged_of_succeeds fs destDir _ hdir hempty hs]
  have hmem : ∀ name data, (name, data) ∈ (w.pages.flatten.map Object.entry).foldl overlay []
      ↔ ∃ o, lastNamed name w.pages.flatten = some o ∧ o.content = data := by
    intro name data
    rw [mem_foldl_overlay]
    simp only [List.not_mem_nil, and_false, or_false]
    constructor
    · rintro ⟨o, h1, h2⟩
      refine ⟨o, h1, ?_⟩
      rw [← Object.buf_of_readOk o (hok o (lastNamed_some _ _ _ h1).1).1]; exact h2
    · rintro ⟨o, h1, h2⟩
      refine ⟨o, h1, ?_⟩
      rw [Object.buf_of_readOk o (hok o (lastNamed_some _ _ _ h1).1).1]; exact h2
  refine ⟨trivial, ?_, ?_, hmem, ?_⟩
  · intro line hl
    rcases List.mem_cons.1 hl with hl | hl
    · exact absurd hl (by simp)
    · exact pagedEvents_no_log _ _ _ _ hl
  · intro name
    constructor
    · intro hn
      obtain ⟨⟨n, data⟩, hx, rfl⟩ := List.mem_map.1 hn
      obtain ⟨o, h1, -⟩ := (hmem n data).1 hx
      exact ⟨o, (lastNamed_some _ _ _ h1).1, (lastNamed_some _ _ _ h1).2⟩
    · rintro ⟨o, ho, hn⟩
      obtain ⟨o2, h2⟩ := lastNamed_isSome name _ o ho hn
      exact List.mem_map.2 ⟨(name, o2.content), (hmem name o2.content).2 ⟨o2, h2, rfl⟩, rfl⟩
  · intro hnd o ho
    have hnd2 : ((w.pages.flatten.map Object.entry).map Prod.fst).Nodup := by
      rw [List.map_map]; exact hnd
    rw [foldl_overlay_nodup _ hnd2, List.mem_reverse]
    have : (Base o.Key, o.content) = o.entry := by
      rw [← Object.buf_of_readOk o (hok o ho).1]; rfl
    rw [this]
    exact List.mem_map_of_mem _ ho

/-- The first migration of the two-page listing is staged with its content. -/
theorem C4_staged_files_are_base_names_witness :
    ("0001_init.sql".toList, [1, 2]) ∈
      (downloadMigrations (Example.world Example.twoPages) "migrations-bucket".toList
        "app/".toList Example.dir Example.fs).2.1.ls Example.dir :=
  (C4_staged_files_are_base_names (Example.world Example.twoPages) "migrations-bucket".toList
    "app/".toList Example.dir Example.fs (by decide) (by decide)
    (by
      intro o ho
      simp only [Example.world, Example.twoPages, List.flatten, List.append_nil,
        List.singleton_append, List.mem_cons, List.mem_singleton, List.not_mem_nil,
        or_false] at ho
      rcases ho with rfl | rfl <;> decide)).2.2.2.2
    (by decide) (Example.object "app/0001_init.sql" [1, 2]) (by simp [Example.world, Example.twoPages])

/-- C5: for a listing whose keys have pairwise different base names and whose fetches and
writes all succeed, into an existing empty directory, the page callback is run on every
page and returns true each time, every listed object is fetched, and the number of files
in destDir afterwards is the number of objects summed over all pages. -/
theorem C5_every_page_is_staged (w : World) (bucket keyPrefix destDir : GoString) (fs : FS)
    (hdir : fs.hasDir destDir = true) (hempty : fs.ls destDir = [])
    (hok : ∀ o ∈ w.pages.flatten, o.succeeds fs.dirs destDir = true)
    (hnodup : (w.pages.flatten.map (fun o => Base o.Key)).Nodup) :
    (downloadMigrations w bucket keyPrefix destDir fs).2.2.filterMap Event.callbackResult
      = List.replicate w.pages.length true ∧
    (downloadMigrations w bucket keyPrefix destDir fs).2.2.filterMap Event.fetchedKey
      = w.pages.flatten.map Object.Key ∧
    ((downloadMigrations w bucket keyPrefix destDir fs).2.1.ls destDir).length
      = (w.pages.map List.length).sum := by
  rw [downloadMigrations_ok w bucket keyPrefix destDir fs hok]
  simp only
  refine ⟨?_, ?_, ?_⟩
  · simp [Event.callbackResult, pagedEvents_callbackResult]
  · simp [Event.fetchedKey, pagedEvents_fetchedKey]
  · have hnd2 : ((w.pages.flatten.map Object.entry).map Prod.fst).Nodup := by
      rw [List.map_map]; exact hnodup
    rw [ls_staged_of_succeeds fs destDir _ hdir hempty hok, foldl_overlay_nodup _ hnd2,
      List.length_reverse, List.length_map, List.length_flatten]

/-- Both pages of the two-page listing are staged. -/
theorem C5_every_page_is_staged_witness :
    ((downloadMigrations (Example.world Example.twoPages) "migrations-bucket".toList
        "app/".toList Example.dir Example.fs).2.1.ls Example.dir).length = 2 :=
  (C5_every_page_is_staged (Example.world Example.twoPages) "migrations-bucket".toList
    "app/".toList Example.dir Example.fs (by decide) (by decide)
    (by
      intro o ho
      simp only [Example.world, Example.twoPages, List.flatten, List.append_nil,
        List.singleton_append, List.mem_cons, List.mem_singleton, List.not_mem_nil,
        or_false] at ho
      rcases ho with rfl | rfl <;> decide)
    (by decide)).2.2

theorem Object.leftover_eq_none (dirs : List Lexical) (destDir : GoString) (o : Object)
    (h : o.fetchOk = false ∨ target destDir o.Key ∈ dirs ∨
      ∃ e, o.writeFault = some (.atOpen e)) :
    o.leftover dirs destDir = none := by
  unfold Object.leftover
  unfold Object.fetchOk at h
  cases hf : o.fetched with
  | error e => rfl
  | ok body =>
    cases hw : o.writeFault with
    | none => rfl
    | some fault =>
      cases fault with
      | atOpen e => rfl
      | afterOpen n e =>
        rcases h with h | h | ⟨e2, h⟩
        · rw [hf] at h; exact absurd h (by simp)
        · simp [h]
        · rw [hw] at h; exact absurd h (by simp)

theorem Object.leftover_eq_some (dirs : List Lexical) (destDir : GoString) (o : Object)
    (n : Nat) (e : GoError) (hf : o.fetchOk = true) (ht : target destDir o.Key ∉ dirs)
    (hw : o.writeFault = some (.afterOpen n e)) :
    o.leftover dirs destDir = some (o.buf.take n) := by
  unfold Object.leftover Object.buf
  unfold Object.fetchOk at hf
  cases hb : o.fetched with
  | error e2 => rw [hb] at hf; exact absurd hf (by simp)
  | ok body => simp [hw, ht]

/-- C10 (as stated it fails): when the write of the second of two objects breaks off after
one byte reached the file, destDir holds the file of the failing object, with that byte,
next to the file of the object listed before it; and when the failing object has the base
name of the object before it and its write breaks off before any byte, the file of the
earlier object is left empty. In both runs the files are not those of the objects listed
strictly before the failing one. -/
theorem C10_broken_write_leaves_its_file :
    (downloadMigrations
      (Example.world [[Example.object "app/0001_init.sql" [1, 2],
        Example.halfWritten "app/0002_big.sql" [3, 4, 5, 6] 1]])
      "migrations-bucket".toList "app/".toList Example.dir Example.fs).2.1.ls Example.dir
      = [("0002_big.sql".toList, [3]), ("0001_init.sql".toList, [1, 2])] ∧
    (lastNamed "0002_big.sql".toList [Example.object "app/0001_init.sql" [1, 2]]).isNone = true ∧
    (downloadMigrations
      (Example.world [[Example.object "app/a/001.sql" [1, 2],
        Example.halfWritten "app/b/001.sql" [7, 8, 9] 0]])
      "migrations-bucket".toList "app/".toList Example.dir Example.fs).2.1.ls Example.dir
      = [("001.sql".toList, [])] ∧
    ((lastNamed "001.sql".toList [Example.object "app/a/001.sql" [1, 2]]).map Object.buf)
      = some [1, 2] := by
  decide

/-- C10 (amended): when `bad` is the first listed object whose fetch or write fails, in
whatever page, the objects fetched are those listed up to and including `bad` and none
after it, and the callback returns false on the page of `bad` and is not run on a later
page. When the fetch failed or the write failed at the open (the target is a directory
or the open itself failed), the file system is the one the pass leaves on the listing cut
before `bad`, and the files in destDir are exactly those of the objects listed strictly
before `bad`. When the write failed after the open with `n` bytes written, the file
system is that one with the first `n` bytes of `bad` put in its target file: the file of
the base name of `bad` holds those bytes, and the other files in destDir are exactly those
of the objects listed strictly before `bad`. -/
theorem C10_halts_leaving_at_most_the_failing_file (w : World)
    (bucket keyPrefix destDir : GoString)
    (fs : FS) (before after : List (List Object)) (pre post : List Object) (bad : Object)
    (hpages : w.pages = before ++ (pre ++ bad :: post) :: after)
    (hdir : fs.hasDir destDir = true) (hempty : fs.ls destDir = [])
    (hok : ∀ o ∈ before.flatten ++ pre, o.succeeds fs.dirs destDir = true)
    (hbad : bad.succeeds fs.dirs destDir = false) :
    (downloadMigrations w bucket keyPrefix destDir fs).2.2.filterMap Event.fetchedKey
      = (before.flatten ++ pre ++ [bad]).map Object.Key ∧
    (downloadMigrations w bucket keyPrefix destDir fs).2.2.filterMap Event.callbackResult
      = List.replicate before.length true ++ [false] ∧
    ((bad.fetchOk = false ∨ target destDir bad.Key ∈ fs.dirs ∨
        ∃ e, bad.writeFault = some (.atOpen e)) →
      (downloadMigrations w bucket keyPrefix destDir fs).2.1
        = (downloadMigrations { w with pages := [before.flatten ++ pre], listErr := none }
            bucket keyPrefix destDir fs).2.1 ∧
      ∀ name data,
        (name, data) ∈ (downloadMigrations w bucket keyPrefix destDir fs).2.1.ls destDir
        ↔ ∃ o, lastNamed name (before.flatten ++ pre) = some o ∧ o.buf = data) ∧
    (∀ n e, bad.fetchOk = true → target destDir bad.Key ∉ fs.dirs →
        bad.writeFault = some (.afterOpen n e) →
      (downloadMigrations w bucket keyPrefix destDir fs).2.1
        = ((downloadMigrations { w with pages := [before.flatten ++ pre], listErr := none }
            bucket keyPrefix destDir fs).2.1).put (target destDir bad.Key) (bad.buf.take n) ∧
      ∀ name data,
        (name, data) ∈ (downloadMigrations w bucket keyPrefix destDir fs).2.1.ls destDir
        ↔ (name = Base bad.Key ∧ data = bad.buf.take n) ∨
          (name ≠ Base bad.Key ∧
            ∃ o, lastNamed name (before.flatten ++ pre) = some o ∧ o.buf = data)) := by
  obtain ⟨-, h2, h3, h4⟩ := downloadMigrations_halt w bucket keyPrefix destDir fs before after
    pre post bad hpages hok hbad
  have hcut := downloadMigrations_ok { w with pages := [before.flatten ++ pre], listErr := none }
    bucket keyPrefix destDir fs (by simpa using hok)
  have hcut2 : (downloadMigrations { w with pages := [before.flatten ++ pre], listErr := none }
      bucket keyPrefix destDir fs).2.1 = fs.staged destDir (before.flatten ++ pre) := by
    rw [hcut]; simp
  have hls : ∀ name data, (name, data) ∈ (fs.staged destDir (before.flatten ++ pre)).ls destDir
      ↔ ∃ o, lastNamed name (before.flatten ++ pre) = some o ∧ o.buf = data := by
    intro name data
    rw [ls_staged_of_succeeds fs destDir _ hdir hempty hok, mem_foldl_overlay]
    simp
  refine ⟨h3, h4, ?_, ?_⟩
  · intro hcase
    have hl : bad.leftover (fs.staged destDir (before.flatten ++ pre)).dirs destDir = none := by
      rw [FS.staged_dirs]; exact Object.leftover_eq_none _ _ _ hcase
    have hfs : (downloadMigrations w bucket keyPrefix destDir fs).2.1
        = fs.staged destDir (before.flatten ++ pre) := by
      rw [h2, FS.afterFailure, hl]
    refine ⟨by rw [hfs, hcut2], fun name data => ?_⟩
    rw [hfs]; exact hls name data
  · intro n e hf ht hw
    have hl : bad.leftover (fs.staged destDir (before.flatten ++ pre)).dirs destDir
        = some (bad.buf.take n) := by
      rw [FS.staged_dirs]; exact Object.leftover_eq_some _ _ _ n e hf ht hw
    have hfs : (downloadMigrations w bucket keyPrefix destDir fs).2.1
        = (fs.staged destDir (before.flatten ++ pre)).put (target destDir bad.Key)
            (bad.buf.take n) := by
      rw [h2, FS.afterFailure, hl]
    refine ⟨by rw [hfs, hcut2], fun name data => ?_⟩
    rw [hfs, target_of_isName destDir bad.Key (name_of_target fs destDir bad.Key hdir ht),
      FS.ls_put]
    simp only [overlay, List.mem_cons, List.mem_filter, decide_eq_true_eq, Prod.mk.injEq, hls]
    constructor
    · rintro (h | ⟨h, hne⟩)
      · exact Or.inl h
      · exact Or.inr ⟨hne, h⟩
    · rintro (h | ⟨hne, h⟩)
      · exact Or.inl h
      · exact Or.inr ⟨h, hne⟩

/-- With a write that breaks off after one byte on the second object of the first page, two
objects are fetched and the file of the second holds that byte. -/
theorem C10_halts_leaving_at_most_the_failing_file_witness :
    (downloadMigrations
      (Example.world [[Example.object "app/0001_init.sql" [1, 2],
        Example.halfWritten "app/0002_big.sql" [3, 4, 5, 6] 1, Example.object "app/0003.sql" [7]],
        [Example.object "app/0004.sql" [4]]])
      "migrations-bucket".toList "app/".toList Example.dir Example.fs).2.2.filterMap
        Event.fetchedKey
      = ["app/0001_init.sql".toList, "app/0002_big.sql".toList] ∧
    ("0002_big.sql".toList, [3]) ∈
      (downloadMigrations
        (Example.world [[Example.object "app/0001_init.sql" [1, 2],
          Example.halfWritten "app/0002_big.sql" [3, 4, 5, 6] 1,
          Example.object "app/0003.sql" [7]],
          [Example.object "app/0004.sql" [4]]])
        "migrations-bucket".toList "app/".toList Example.dir Example.fs).2.1.ls Example.dir :=
  have h := C10_halts_leaving_at_most_the_failing_file
    (Example.world [[Example.object "app/0001_init.sql" [1, 2],
        Example.halfWritten "app/0002_big.sql" [3, 4, 5, 6] 1, Example.object "app/0003.sql" [7]],
        [Example.object "app/0004.sql" [4]]])
    "migrations-bucket".toList "app/".toList Example.dir Example.fs
    [] [[Example.object "app/0004.sql" [4]]]
    [Example.object "app/0001_init.sql" [1, 2]] [Example.object "app/0003.sql" [7]]
    (Example.halfWritten "app/0002_big.sql" [3, 4, 5, 6] 1)
    rfl (by decide) (by decide)
    (by
      intro o ho
      simp only [List.flatten, List.nil_append, List.mem_cons, List.not_mem_nil,
        or_false] at ho
      subst ho
      decide)
    (by decide)
  ⟨h.1, ((h.2.2.2 1 (.plain "no space left on device".toList) (by decide) (by decide) rfl).2
    "0002_big.sql".toList [3]).2 (Or.inl (by decide))⟩
